import Mathlib

/-!
Verification development for qfconvert's `keystroker.py` (quickfort).

The file shallowly embeds the keystroke-planning engine: keycode translation
tables (`KEY_LIST`), the cursor movement planner (`Keystroker.move`), the
area-sizing strategies, the material selector (`Keystroker.setmats`), the
plot loop (`Keystroker.plot`), keystring splitting
(`split_keystring_into_keycodes`), macro serialization (`convert_to_macro`)
and the keybinding file parser (`parse_interface_txt`).

The geometry module (points, directions, areas) is an external collaborator
that is not part of the embedded source; those definitions are modelled from
the specification and are marked as such.
-/

set_option maxHeartbeats 1600000

/-- Modelled from the spec: a grid position with integer coordinates
(`Position: integer (x, y) coordinate on the grid`, geometry collaborator).
The z coordinate is handled separately by the planner via `zoffset`. -/
structure Point where
  x : Int
  y : Int
deriving DecidableEq

/-- Modelled from the spec: positions `support vector addition`. -/
def Point.add (p q : Point) : Point := ⟨p.x + q.x, p.y + q.y⟩

/-- Modelled from the spec: positions support `scaling via direction deltas`
(Python's `point * k`). -/
def Point.mul (p : Point) (k : Int) : Point := ⟨p.x * k, p.y * k⟩

/-- Modelled from the spec: the midpoint of two positions used by the build
and fixed sizing strategies; Python's floor division `//` is `Int.fdiv`. -/
def Point.midpoint (p q : Point) : Point :=
  ⟨p.x + Int.fdiv (q.x - p.x) 2, p.y + Int.fdiv (q.y - p.y) 2⟩

/-- Modelled from the spec: `one of 8 compass directions (plus "none"),
each with a unit delta vector`. -/
inductive Compass
  | n | ne | e | se | s | sw | w | nw | nodir
deriving DecidableEq

/-- Modelled from the spec: the compass name of a direction, used to build
keycodes such as `[ne]` and `[+ne]`. The null direction has no name. -/
def Compass.compass : Compass → String
  | .n => "n"
  | .ne => "ne"
  | .e => "e"
  | .se => "se"
  | .s => "s"
  | .sw => "sw"
  | .w => "w"
  | .nw => "nw"
  | .nodir => ""

/-- Modelled from the spec: the unit delta vector of each compass direction
(y grows to the south, x grows to the east). -/
def Compass.delta : Compass → Point
  | .n => ⟨0, -1⟩
  | .ne => ⟨1, -1⟩
  | .e => ⟨1, 0⟩
  | .se => ⟨1, 1⟩
  | .s => ⟨0, 1⟩
  | .sw => ⟨-1, 1⟩
  | .w => ⟨-1, 0⟩
  | .nw => ⟨-1, -1⟩
  | .nodir => ⟨0, 0⟩

/-- Modelled from the spec: the direction `derivable from two positions as the
direction that most directly connects them` (diagonal while both axes differ). -/
def get_direction (p q : Point) : Compass :=
  if p.y < q.y then
    if p.x < q.x then .se else if q.x < p.x then .sw else .s
  else if q.y < p.y then
    if p.x < q.x then .ne else if q.x < p.x then .nw else .n
  else
    if p.x < q.x then .e else if q.x < p.x then .w else .nodir

/-- Modelled from the spec: a rectangular designation area given by a pair of
corner positions. -/
structure Area where
  c1 : Point
  c2 : Point
deriving DecidableEq

/-- Modelled from the spec: the `opposite corner relative to a given corner`
of an area (the diagonally opposite corner). -/
def Area.opposite_corner (a : Area) (p : Point) : Point :=
  ⟨a.c1.x + a.c2.x - p.x, a.c1.y + a.c2.y - p.y⟩

/-- Modelled from the spec: area width (number of columns). -/
def Area.width (a : Area) : Nat := (a.c2.x - a.c1.x).natAbs + 1

/-- Modelled from the spec: area height (number of rows). -/
def Area.height (a : Area) : Nat := (a.c2.y - a.c1.y).natAbs + 1

/-- Modelled from the spec: total cell count of an area. -/
def Area.size (a : Area) : Nat := a.width * a.height

/-- Modelled from the spec: a cell's designation: `a command string and the
area it belongs to` (grid collaborator). -/
structure Cell where
  command : String
  area : Area

/-- The `'key'` sub-table of `KEY_LIST` (keystroker.py lines 14-41), in source
order: keycode, keystroke-mode token. -/
def keyModeTable : List (String × String) :=
  [(">", "^5"), ("<", "+5"),
   ("[n]", "8"), ("[ne]", "9"), ("[e]", "6"), ("[se]", "3"),
   ("[s]", "2"), ("[sw]", "1"), ("[w]", "4"), ("[nw]", "7"),
   ("[+n]", "+8"), ("[+ne]", "+9"), ("[+e]", "+6"), ("[+se]", "+3"),
   ("[+s]", "+2"), ("[+sw]", "+1"), ("[+w]", "+4"), ("[+nw]", "+7"),
   ("[widen]", "k"), ("[heighten]", "u"),
   ("[menudown]", "{NumpadAdd}"), ("[menuup]", "{NumpadSub}"),
   ("!", "{Enter}"), ("#", "+{Enter}"), ("%", "{wait}"), ("^", "{Esc}")]

/-- The `'macro'` sub-table of `KEY_LIST` (keystroker.py lines 42-68). Note the
empty token for `%`. -/
def macroModeTable : List (String × String) :=
  [(">", ">"), ("<", "<"),
   ("[n]", "0:8"), ("[ne]", "0:9"), ("[e]", "0:6"), ("[se]", "0:3"),
   ("[s]", "0:2"), ("[sw]", "0:1"), ("[w]", "0:4"), ("[nw]", "0:7"),
   ("[+n]", "1:8"), ("[+ne]", "1:9"), ("[+e]", "1:6"), ("[+se]", "1:3"),
   ("[+s]", "1:2"), ("[+sw]", "1:1"), ("[+w]", "1:4"), ("[+nw]", "1:7"),
   ("[widen]", "k"), ("[heighten]", "u"),
   ("[menudown]", "+"), ("[menuup]", "-"),
   ("!", "0:Enter"), ("#", "1:Enter"), ("%", ""), ("^", "")]

/-- Python `dict.get`: first binding of a key in an association list, `none`
when absent. -/
def dictGet {α : Type} : List (String × α) → String → Option α
  | [], _ => none
  | (k', v) :: rest, k => if k = k' then some v else dictGet rest k

/-- `KEY_LIST[mode]` for the two modes the program uses. -/
def keyTableFor (mode : String) : List (String × String) :=
  if mode = "key" then keyModeTable
  else if mode = "macro" then macroModeTable
  else []

/-- `translate_keycode` (keystroker.py lines 350-355):
`KEY_LIST[mode].get(keycode) or keycode`. Python's `or` falls back to the
keycode whenever the looked-up value is falsy, i.e. missing or `""`. -/
def translate_keycode (keycode mode : String) : String :=
  match dictGet (keyTableFor mode) keycode with
  | some v => if v = "" then keycode else v
  | none => keycode

/-- `translate_keycodes` (keystroker.py lines 345-347). `util.flatten` is an
external helper; on the flat list of translated strings it is the identity. -/
def translate_keycodes (keycodes : List String) (mode : String) : List String :=
  keycodes.map (fun k => translate_keycode k mode)

/-- The loop state of `Keystroker.move`'s while loop: the cursor position
`start` and the `allow_backtrack` flag. -/
structure MoveState where
  pos : Point
  allow_backtrack : Bool
deriving DecidableEq

/-- Taxicab distance between two positions; the termination measure of the
movement loop. -/
def dist1 (p q : Point) : Nat := (q.x - p.x).natAbs + (q.y - p.y).natAbs

/-- One iteration of the while loop of `Keystroker.move`
(keystroker.py lines 210-267): returns the keycodes emitted by the iteration
and the updated loop state. `oob` is `self.grid.is_out_of_bounds`. -/
def Keystroker.moveBody (oob : Point → Bool) (allowjumps : Bool) (endp : Point)
    (st : MoveState) : List String × MoveState :=
  let start := st.pos
  let direction := get_direction start endp
  let dx := (start.x - endp.x).natAbs
  let dy := (start.y - endp.y).natAbs
  let steps := if dx = 0 then dy else if dy = 0 then dx else min dx dy
  let keycode := "[" ++ direction.compass ++ "]"
  let jumpkeycode := "[+" ++ direction.compass ++ "]"
  let move := direction.delta
  if ¬allowjumps ∨ steps < 8 ∨ ¬st.allow_backtrack then
    (List.replicate steps keycode, ⟨start.add (move.mul steps), true⟩)
  else
    let jumps := steps / 10
    let leftover := steps % 10
    let jumpmove := move.mul 10
    if 8 ≤ leftover then
      if oob (start.add (jumpmove.mul (jumps + 1))) then
        (List.replicate leftover keycode ++ List.replicate jumps jumpkeycode,
         ⟨start.add (move.mul steps), false⟩)
      else
        (List.replicate (jumps + 1) jumpkeycode,
         ⟨start.add (jumpmove.mul (jumps + 1)), true⟩)
    else
      (List.replicate leftover keycode ++ List.replicate jumps jumpkeycode,
       ⟨start.add (move.mul steps), true⟩)

/-- The while loop of `Keystroker.move` (keystroker.py lines 210-267) as a
fuel-indexed iteration: `none` means the fuel ran out before `start` reached
`end`. Termination with fuel `dist1 start end` is proved below. -/
def Keystroker.moveWhile (oob : Point → Bool) (allowjumps : Bool) (endp : Point) :
    Nat → MoveState → Option (List String)
  | 0, st => if st.pos = endp then some [] else none
  | fuel + 1, st =>
    if st.pos = endp then some []
    else
      let r := Keystroker.moveBody oob allowjumps endp st
      (Keystroker.moveWhile oob allowjumps endp fuel r.2).map (fun ks => r.1 ++ ks)

/-- `Keystroker.move` (keystroker.py lines 194-269): z-level keycodes first,
then the planar movement loop, run with the (provably sufficient) fuel
`dist1 start end`. -/
def Keystroker.move (oob : Point → Bool) (start endp : Point)
    (zoffset : Int) (allowjumps : Bool) : List String :=
  (if 0 < zoffset then List.replicate zoffset.toNat ">"
   else if zoffset < 0 then List.replicate (-zoffset).toNat "<"
   else [])
  ++ (Keystroker.moveWhile oob allowjumps endp (dist1 start endp) ⟨start, true⟩).getD []

/-- The replay semantics of the movement-correctness claim: each single-step
compass keycode advances the cursor by one unit delta, each jump keycode by
ten units; every other keycode leaves the cursor in place. -/
def replayTable : List (String × Point) :=
  [("[n]", ⟨0, -1⟩), ("[ne]", ⟨1, -1⟩), ("[e]", ⟨1, 0⟩), ("[se]", ⟨1, 1⟩),
   ("[s]", ⟨0, 1⟩), ("[sw]", ⟨-1, 1⟩), ("[w]", ⟨-1, 0⟩), ("[nw]", ⟨-1, -1⟩),
   ("[+n]", ⟨0, -10⟩), ("[+ne]", ⟨10, -10⟩), ("[+e]", ⟨10, 0⟩), ("[+se]", ⟨10, 10⟩),
   ("[+s]", ⟨0, 10⟩), ("[+sw]", ⟨-10, 10⟩), ("[+w]", ⟨-10, 0⟩), ("[+nw]", ⟨-10, -10⟩)]

/-- Displacement of one keycode under the replay semantics. -/
def keyDelta (k : String) : Point := (dictGet replayTable k).getD ⟨0, 0⟩

/-- Replaying a keycode list from a position, in emitted order. -/
def replayKeys (p : Point) (ks : List String) : Point :=
  ks.foldl (fun q k => q.add (keyDelta k)) p

/-- `Keystroker.setsize_standard` (keystroker.py lines 271-278): move to the
end corner; resulting cursor is the end corner. -/
def Keystroker.setsize_standard (oob : Point → Bool) (start endp : Point) :
    List String × Point :=
  (Keystroker.move oob start endp 0 true, endp)

/-- `Keystroker.setsize_build` (keystroker.py lines 280-296): move to the
midpoint, then widen/heighten; resulting cursor is the midpoint. -/
def Keystroker.setsize_build (oob : Point → Bool) (start endp : Point) :
    List String × Point :=
  let midpoint := start.midpoint endp
  let area : Area := ⟨start, endp⟩
  (Keystroker.move oob start midpoint 0 true
     ++ List.replicate (area.width - 1) "[widen]"
     ++ List.replicate (area.height - 1) "[heighten]",
   midpoint)

/-- `Keystroker.setsize_fixed` (keystroker.py lines 298-312): move to the
midpoint only; resulting cursor is the midpoint. -/
def Keystroker.setsize_fixed (oob : Point → Bool) (start endp : Point) :
    List String × Point :=
  let midpoint := start.midpoint endp
  (Keystroker.move oob start midpoint 0 true, midpoint)

/-- `Keystroker.setmats` (keystroker.py lines 314-327). Python's
`int(sqrt(areasize))` (floor of the IEEE-double square root, exact at every
realistic area size) is modelled as `Nat.sqrt`. -/
def Keystroker.setmats (areasize : Nat) : List String :=
  if areasize = 1 then ["#"]
  else
    let reps := 2 * Nat.sqrt areasize
    (List.replicate (reps - 1) ["#", "[menudown]"]).flatten ++ ["#"]

/-- The keycode-substitution loop of `Keystroker.plot`
(keystroker.py lines 167-172), with Python's mutating-for-loop semantics made
explicit: the loop index `i` runs over `nextcmd`, which the `else` branch
itself appends to. `none` means the fuel ran out with the loop still running
(in Python the loop would still be running after as many iterations). -/
def cmdSubRun (codes : List String) :
    Nat → Nat → List String → List String → Option (List String)
  | 0, i, nextcmd, nextcodes =>
    if i < nextcmd.length then none else some nextcodes
  | fuel + 1, i, nextcmd, nextcodes =>
    if h : i < nextcmd.length then
      let c := nextcmd.get ⟨i, h⟩
      if c = "cmd" then cmdSubRun codes fuel (i + 1) nextcmd (nextcodes ++ codes)
      else cmdSubRun codes fuel (i + 1) (nextcmd ++ [c]) nextcodes
    else some nextcodes

/-- `re.sub(r'\{', '|{', s)` on the character list: insert `|` before every
opening brace (keystroker.py line 389). -/
def subLB (cs : List Char) : List Char :=
  cs.flatMap (fun c => if c = '{' then ['|', '{'] else [c])

/-- `re.sub(r'\}', '}|', s)`: insert `|` after every closing brace
(keystroker.py line 390). -/
def subRB (cs : List Char) : List Char :=
  cs.flatMap (fun c => if c = '}' then ['}', '|'] else [c])

/-- `re.sub(r'\+\!', '|+!|', s)`: wrap every (non-overlapping, left-to-right)
occurrence of `+!` in `|`s (keystroker.py line 391). -/
def subPB : List Char → List Char
  | [] => []
  | [c] => [c]
  | c1 :: c2 :: rest =>
    if c1 = '+' ∧ c2 = '!' then '|' :: '+' :: '!' :: '|' :: subPB rest
    else c1 :: subPB (c2 :: rest)

/-- `re.sub(r'\!', '|!|', s)` (keystroker.py line 392). -/
def subBang (cs : List Char) : List Char :=
  cs.flatMap (fun c => if c = '!' then ['|', '!', '|'] else [c])

/-- `re.sub(r'\^', '|^|', s)` (keystroker.py line 393). -/
def subCaret (cs : List Char) : List Char :=
  cs.flatMap (fun c => if c = '^' then ['|', '^', '|'] else [c])

/-- The worker of `re.split(r'\|+', s)`: splits on runs of `|`, keeping the
empty segments a leading or trailing run produces. `cur` is the current
segment (reversed); `inBar` records that the previous character was a `|`
belonging to an already-split run. -/
def splitBarsGo : List Char → List Char → Bool → List (List Char)
  | [], cur, _ => [cur.reverse]
  | c :: rest, cur, inBar =>
    if c = '|' then
      if inBar then splitBarsGo rest cur true
      else cur.reverse :: splitBarsGo rest [] true
    else splitBarsGo rest (c :: cur) false

/-- `re.split(r'\|+', s)` (keystroker.py line 394). -/
def splitBars (cs : List Char) : List (List Char) := splitBarsGo cs [] false

/-- The collection loop of `split_keystring_into_keycodes`
(keystroker.py lines 397-402). An empty segment makes Python's `k[0]` raise
`IndexError: string index out of range`, modelled as the error result. -/
def collectCodes : List (List Char) → Except String (List String)
  | [] => .ok []
  | [] :: _ => .error "string index out of range"
  | (c :: k) :: rest =>
    if c = '{' ∨ c = '!' ∨ c = '^' ∨ c = '+' then
      (collectCodes rest).map (fun codes => String.mk (c :: k) :: codes)
    else
      (collectCodes rest).map
        (fun codes => (c :: k).map (fun ch => String.mk [ch]) ++ codes)

/-- `split_keystring_into_keycodes` (keystroker.py lines 382-404): the regex
substitution pipeline, the split on `|` runs, then the collection loop. -/
def split_keystring_into_keycodes (keystring : String) : Except String (List String) :=
  let cmdedit := subCaret (subBang (subPB (subRB (subLB keystring.toList))))
  collectCodes (splitBars cmdedit)

/-- Modelled from the spec: `BuildConfig` is an external policy table keyed by
command type. `buildconfig.get(key, command)` is modelled as one function per
key; `samecmd`/`diffcmd`/`init` are post-`or []` (a missing entry is `[]`), and
a falsy `setmats` entry is the empty string. `setsize` names a sizing strategy. -/
structure BuildConfig where
  init : List String
  submenukeys : List String
  samecmd : String → List String
  diffcmd : String → List String
  setsize : String → String
  setmats : String → String
  designate : String → List String

/-- `getattr(self, name)` for the sizing strategies: resolves the strategy
name from the BuildConfig to the strategy, `none` for an unknown name
(Python raises `AttributeError`, a fatal configuration error). -/
def getSizeFun (oob : Point → Bool) (name : String) :
    Option (Point → Point → List String × Point) :=
  if name = "setsize_standard" then some (Keystroker.setsize_standard oob)
  else if name = "setsize_build" then some (Keystroker.setsize_build oob)
  else if name = "setsize_fixed" then some (Keystroker.setsize_fixed oob)
  else none

/-- `getattr(self, setmatscfg)`: the only materials strategy is `setmats`. -/
def getMatsFun (name : String) : Option (Nat → List String) :=
  if name = "setmats" then some Keystroker.setmats else none

/-- The state `Keystroker.plot` threads through its loop over the plot list:
cursor position, last command processed, last active submenu. -/
structure PlotState where
  cursor : Point
  last_command : String
  last_submenu : String
deriving DecidableEq

/-- `re.match(pattern, command)` for the submenu patterns; the spec describes
them as prefix patterns, so the regex match is modelled as a literal prefix
test. -/
def reMatchStart (pat command : String) : Bool :=
  pat.toList.isPrefixOf command.toList

/-- One iteration of the submenu loop of `Keystroker.plot`
(keystroker.py lines 126-148) over one pattern `k`. The threaded tuple is
(`subs['menu']`, `subs['exitmenu']`, `last_submenu`, `justcommand`); the
`menu` entry holds the submenu string's characters because `subs['menu']` is
assigned a string that is later `extend`ed character-by-character. -/
def submenuStep (command : String)
    (st : Option (List String) × Option (List String) × String × Option String)
    (k : String) :
    Option (List String) × Option (List String) × String × Option String :=
  if reMatchStart k command then
    let submenu := String.mk (command.toList.take 1)
    let justcommand := String.mk (command.toList.drop 1)
    let lastsub := st.2.2.1
    if lastsub = "" then
      (some (submenu.toList.map (fun c => String.mk [c])), some [], submenu,
       some justcommand)
    else if lastsub ≠ submenu then
      (some (submenu.toList.map (fun c => String.mk [c])), some ["^"], submenu,
       some justcommand)
    else
      (some [], some [], lastsub, some justcommand)
  else st

/-- One iteration of the main loop of `Keystroker.plot`
(keystroker.py lines 96-191), processing the area entered at `pos`. Returns
the keycodes this area contributes and the updated state; `none` models the
fatal errors (unknown strategy name, keystring IndexError) and an exhausted
fuel for the `cmd`-substitution loop. -/
def plotStep (fuel : Nat) (grid : Point → Cell) (oob : Point → Bool)
    (bc : BuildConfig) (st : PlotState) (pos : Point) :
    Option (List String × PlotState) :=
  let cell := grid pos
  let command := cell.command
  let endpos := cell.area.opposite_corner pos
  let nextcmd := if command = st.last_command then bc.samecmd command
                 else bc.diffcmd command
  let last_command1 := if command = st.last_command then st.last_command else command
  let moveto := Keystroker.move oob st.cursor pos 0 true
  match getSizeFun oob (bc.setsize command) with
  | none => none
  | some setsizefun =>
    let sres := setsizefun pos endpos
    let setmatscfg := bc.setmats command
    match (if setmatscfg = "" then some none
           else (getMatsFun setmatscfg).map (fun f => some (f cell.area.size))) with
    | none => none
    | some matsEntry =>
      let folded := bc.submenukeys.foldl (submenuStep command)
        (none, none, st.last_submenu, none)
      let menuE0 := folded.1
      let exitE0 := folded.2.1
      let lastsub0 := folded.2.2.1
      let justcmd0 := folded.2.2.2
      let after :=
        match justcmd0 with
        | none =>
          (some ([] : List String),
           some (if lastsub0 = "" then ([] : List String) else ["^"]),
           "", command)
        | some jc =>
          if jc = "" then
            (some ([] : List String),
             some (if lastsub0 = "" then ([] : List String) else ["^"]),
             "", command)
          else (menuE0, exitE0, lastsub0, jc)
      let menuE := after.1
      let exitE := after.2.1
      let lastsub := after.2.2.1
      let justcommand := after.2.2.2
      match split_keystring_into_keycodes justcommand with
      | .error _ => none
      | .ok codes =>
        match cmdSubRun codes fuel 0 nextcmd [] with
        | none => none
        | some nextcodes =>
          let subs : String → Option (List String) := fun p =>
            if p = "moveto" then some moveto
            else if p = "setsize" then some sres.1
            else if p = "setmats" then matsEntry
            else if p = "menu" then menuE
            else if p = "exitmenu" then exitE
            else if p = "cmd" then some nextcodes
            else none
          let newkeys := (bc.designate command).flatMap
            (fun p => match subs p with | some l => l | none => [p])
          some (newkeys, ⟨sres.2, last_command1, lastsub⟩)

/-- `Keystroker.plot` (keystroker.py lines 83-192): fold `plotStep` over the
plot list, starting from the BuildConfig's `init` keycodes and a fresh state. -/
def Keystroker.plot (fuel : Nat) (grid : Point → Cell) (oob : Point → Bool)
    (bc : BuildConfig) (plots : List Point) (cursor : Point) :
    Option (List String) :=
  (plots.foldl
      (fun acc pos =>
        match acc with
        | none => none
        | some (keys, st) =>
          match plotStep fuel grid oob bc st pos with
          | none => none
          | some (newkeys, st') => some (keys ++ newkeys, st'))
      (some (bc.init, ⟨cursor, "", ""⟩))).map Prod.fst

/-- A value of the module-level `KEY_LIST` dictionary as `parse_interface_txt`
sees it: the two mode sub-tables it starts with, plus the binding lists the
parser adds to it (the parser aliases the module global, so both kinds of
value can occur in one dictionary). -/
inductive KBVal
  | table (t : List (String × String))
  | binds (l : List String)
deriving DecidableEq

/-- The type of the module-level `KEY_LIST` dictionary / the parser's
`keybinds` (they are one and the same object in the source). -/
abbrev KeyDict := List (String × KBVal)

/-- The module-level `KEY_LIST` dictionary (keystroker.py lines 13-69) in its
initial state: the two mode sub-tables. -/
def KEY_LIST : KeyDict :=
  [("key", .table keyModeTable), ("macro", .table macroModeTable)]

/-- `keybinds[k].append(line)`: appends to the binding list stored at `k`,
erring like Python if the stored value is a sub-table dictionary
(`AttributeError`) or the key is absent (`KeyError`). -/
def dictAppendBind (d : KeyDict) (k : String) (line : String) : Except String KeyDict :=
  match d with
  | [] => .error "KeyError"
  | (k', v) :: rest =>
    if k = k' then
      match v with
      | .binds l => .ok ((k', .binds (l ++ [line])) :: rest)
      | .table _ => .error "AttributeError: dict has no attribute append"
    else (dictAppendBind rest k line).map (fun r => (k', v) :: r)

/-- Worker for `re.split` on a literal separator: `cur` is the current segment
(reversed); the fuel is at least the remaining length, so the fuel-exhausted
case is unreachable. -/
def splitSeqGo (sep : List Char) : Nat → List Char → List Char → List (List Char)
  | _, [], cur => [cur.reverse]
  | 0, cs, cur => [cur.reverse ++ cs]
  | fuel + 1, c :: rest, cur =>
    if sep.isPrefixOf (c :: rest) then
      cur.reverse :: splitSeqGo sep fuel ((c :: rest).drop sep.length) []
    else splitSeqGo sep fuel rest (c :: cur)

/-- `re.split` on a literal (metacharacter-free) separator, as used for
`re.split(r'\[BIND:', data)` and `re.split('\n', kb)`
(keystroker.py line 416). -/
def splitSeq (sep s : String) : List String :=
  (splitSeqGo sep.toList (s.toList.length + 1) s.toList []).map String.mk

/-- Python 2 `\w`: ASCII letters, digits and underscore. -/
def isWordChar (c : Char) : Bool := c.isAlphanum || c = '_'

/-- Worker for `re.sub(r'(\w+):.+', r'\1', s)` (keystroker.py line 423):
left-to-right, a maximal word-character run immediately followed by `:` and
at least one further non-newline character is replaced by the run alone (the
greedy `.+` consumes to the end of the line). The fuel is at least the
remaining length, so the fuel-exhausted case is unreachable. -/
def subBindGo : Nat → List Char → List Char
  | 0, cs => cs
  | _ + 1, [] => []
  | fuel + 1, c :: rest =>
    if isWordChar c then
      let run := (c :: rest).takeWhile isWordChar
      let after := (c :: rest).dropWhile isWordChar
      match after with
      | ':' :: d :: ds =>
        let consumed := (d :: ds).takeWhile (fun x => x ≠ '\n')
        if consumed = [] then run ++ ':' :: subBindGo fuel (d :: ds)
        else run ++ subBindGo fuel ((d :: ds).drop consumed.length)
      | _ => run ++ subBindGo fuel after
    else c :: subBindGo fuel rest

/-- `re.sub(r'(\w+):.+', r'\1', s)` (keystroker.py line 423). -/
def subBind (s : String) : String :=
  String.mk (subBindGo (s.toList.length + 1) s.toList)

/-- Split a character list at its first `]`, failing on a newline first:
the lazy `(.+?)\]` tail of the key/symbol wrapper pattern. -/
def findClose : List Char → Option (List Char × List Char)
  | [] => none
  | c :: rest =>
    if c = ']' then some ([], rest)
    else if c = '\n' then none
    else (findClose rest).map (fun pr => (c :: pr.1, pr.2))

/-- Try to match `\[(KEY:|SYM:)(.+?)\]` at the head of the list, returning
the inner text and the remainder on success. -/
def keySymMatch (cs : List Char) : Option (List Char × List Char) :=
  match cs with
  | '[' :: k1 :: k2 :: k3 :: ':' :: tail5 =>
    if (k1 = 'K' ∧ k2 = 'E' ∧ k3 = 'Y') ∨ (k1 = 'S' ∧ k2 = 'Y' ∧ k3 = 'M') then
      match tail5 with
      | [] => none
      | a :: rest2 =>
        if a = '\n' then none
        else (findClose rest2).map (fun pr => (a :: pr.1, pr.2))
    else none
  | _ => none

/-- Worker for `re.sub(r'\[(KEY:|SYM:)(.+?)\]', r'\2', s)`
(keystroker.py line 424): each bracketed key/symbol wrapper is replaced by
its inner text. The fuel is at least the remaining length. -/
def subKeySymGo : Nat → List Char → List Char
  | 0, cs => cs
  | _ + 1, [] => []
  | fuel + 1, c :: rest =>
    match keySymMatch (c :: rest) with
    | some (inner, rest') => inner ++ subKeySymGo fuel rest'
    | none => c :: subKeySymGo fuel rest

/-- `re.sub(r'\[(KEY:|SYM:)(.+?)\]', r'\2', s)` (keystroker.py line 424). -/
def subKeySym (s : String) : String :=
  String.mk (subKeySymGo (s.toList.length + 1) s.toList)

/-- The inner loop of `parse_interface_txt` over one bind-group's key lines
(keystroker.py lines 427-432), threading the mutated `keybinds` dictionary. -/
def parseGroupKeys (bind : String) (keys : List String) (d : KeyDict) :
    Except String KeyDict :=
  keys.foldl
    (fun (acc : Except String KeyDict) k =>
      match acc with
      | .error e => .error e
      | .ok d' =>
        if k = "" then .ok d'
        else
          match dictGet d' k with
          | none => dictAppendBind (d' ++ [(k, .binds [])]) k ("\t\t" ++ bind)
          | some _ => dictAppendBind d' k ("\t\t" ++ bind))
    (.ok d)

/-- `parse_interface_txt` (keystroker.py lines 407-433). The crucial aliasing
`keybinds = KEY_LIST` is modelled by taking the current module-level
dictionary as input and returning the mutated dictionary, which is both the
new module state and the function's return value. -/
def parse_interface_txt (keyList : KeyDict) (data : String) : Except String KeyDict :=
  let groups := (splitSeq "[BIND:" data).map (fun kb => splitSeq "\n" kb)
  groups.foldl
    (fun (acc : Except String KeyDict) kb =>
      match acc with
      | .error e => .error e
      | .ok d =>
        if kb = [""] then .ok d
        else
          let bind := subBind (kb.headD "")
          let keyIds := (kb.drop 1).map subKeySym
          parseGroupKeys bind keyIds d)
    (.ok keyList)

/-- The serialization loop of `convert_to_macro` (keystroker.py lines 366-377)
over the already-parsed `keybinds`. A keycode absent from `keybinds` raises
`Key '...' not bound in interface.txt`; extending with a sub-table dictionary
value iterates over its keys, as Python's `list.extend(dict)` does. -/
def convertToMacroLoop (keybinds : KeyDict) (keycodes : List String)
    (title : String) : Except String (List String) :=
  (keycodes.foldl
      (fun (acc : Except String (List String)) key =>
        match acc with
        | .error e => .error e
        | .ok output =>
          match dictGet keybinds key with
          | none => .error ("Key '" ++ key ++ "' not bound in interface.txt")
          | some v =>
            let lines :=
              if key = "^" then ["\t\tLEAVESCREEN"]
              else
                match v with
                | .binds l => l
                | .table t => t.map Prod.fst
            .ok (output ++ lines ++ ["\tEnd of group"]))
      (.ok [title]))
    |>.map (fun out => out ++ ["End of macro"])

/-- `convert_to_macro` (keystroker.py lines 358-379): parse the keybinding
file contents `data` against the current module-level dictionary, then
serialize. The random title fallback's suffix is the `randsuffix` argument. -/
def convert_to_macro (keyList : KeyDict) (data : String) (keycodes : List String)
    (title : String) (randsuffix : Nat) : Except String (List String) :=
  match parse_interface_txt keyList data with
  | .error e => .error e
  | .ok keybinds =>
    let title1 := if title = "" then "@@@qf" ++ toString randsuffix else title
    convertToMacroLoop keybinds keycodes title1

/-- Fixture: a bounds test that never reports out-of-bounds. -/
def oobNever : Point → Bool := fun _ => false

/-- Fixture: a grid whose every cell is a `d` designation over the 3x3 area
with corners (0,0) and (2,2). -/
def gridBuildFix : Point → Cell := fun _ => ⟨"d", ⟨⟨0, 0⟩, ⟨2, 2⟩⟩⟩

/-- Fixture: a BuildConfig that names the `setsize_build` sizing strategy. -/
def bcBuildFix : BuildConfig :=
  ⟨[], [], fun _ => ["cmd"], fun _ => ["cmd"], fun _ => "setsize_build",
   fun _ => "", fun _ => ["moveto", "cmd", "setsize", "!"]⟩

/-- Fixture: a grid whose every cell is a `d` designation over the single-cell
area at (0,0). -/
def gridStdFix : Point → Cell := fun _ => ⟨"d", ⟨⟨0, 0⟩, ⟨0, 0⟩⟩⟩

/-- Fixture: a BuildConfig that names the `setsize_standard` sizing strategy. -/
def bcStdFix : BuildConfig :=
  ⟨[], [], fun _ => ["cmd"], fun _ => ["cmd"], fun _ => "setsize_standard",
   fun _ => "", fun _ => ["moveto", "cmd", "setsize", "!"]⟩

/-- A keystring begins with one of the special tokens of
`split_keystring_into_keycodes`: a bracket-delimited token (it begins with an
opening brace), `!`, `^`, or `+!`. -/
def startsSpecial (s : String) : Bool :=
  match s.toList with
  | '{' :: _ => true
  | '!' :: _ => true
  | '^' :: _ => true
  | '+' :: '!' :: _ => true
  | _ => false

/-- A keystring ends with one of the special tokens of
`split_keystring_into_keycodes`: a bracket-delimited token (it ends with a
closing brace), `!`, `^`, or `+!` (a trailing `+!` ends with `!`, so the `!`
case covers it). -/
def endsSpecial (s : String) : Bool :=
  match s.toList.reverse with
  | '}' :: _ => true
  | '!' :: _ => true
  | '^' :: _ => true
  | _ => false

/-- The inverse of the key-mode sub-table of `KEY_LIST`: token back to
abstract keycode. -/
def keyModeInv : List (String × String) :=
  keyModeTable.map (fun p => (p.2, p.1))

theorem Point.add_x (p q : Point) : (p.add q).x = p.x + q.x := rfl

theorem Point.add_y (p q : Point) : (p.add q).y = p.y + q.y := rfl

theorem Point.mul_x (p : Point) (k : Int) : (p.mul k).x = p.x * k := rfl

theorem Point.mul_y (p : Point) (k : Int) : (p.mul k).y = p.y * k := rfl

theorem Point.eta (p : Point) : (⟨p.x, p.y⟩ : Point) = p := rfl

/-- The delta of the direction connecting two positions is the pair of
coordinate-difference signs. -/
theorem get_direction_delta (p q : Point) :
    (get_direction p q).delta = ⟨(q.x - p.x).sign, (q.y - p.y).sign⟩ := by
  have hs1 : ∀ a b : Int, a < b → (b - a).sign = 1 := fun a b h =>
    Int.sign_eq_one_iff_pos.mpr (by omega)
  have hsm : ∀ a b : Int, b < a → (b - a).sign = -1 := fun a b h =>
    Int.sign_eq_neg_one_iff_neg.mpr (by omega)
  have hs0 : ∀ a b : Int, a = b → (b - a).sign = 0 := by
    intro a b h; rw [h, sub_self, Int.sign_zero]
  rcases lt_trichotomy p.y q.y with hy | hy | hy <;>
    rcases lt_trichotomy p.x q.x with hx | hx | hx
  · simp [get_direction, hy, hx, Compass.delta, hs1 _ _ hy, hs1 _ _ hx]
  · simp [get_direction, hy, hx, Compass.delta, hs1 _ _ hy, hs0 _ _ hx]
  · simp [get_direction, hy, hx, lt_asymm hx, Compass.delta, hs1 _ _ hy, hsm _ _ hx]
  · simp [get_direction, hy, hx, Compass.delta, hs0 _ _ hy, hs1 _ _ hx]
  · simp [get_direction, hy, hx, Compass.delta, hs0 _ _ hy, hs0 _ _ hx]
  · simp [get_direction, hy, hx, lt_asymm hx, Compass.delta, hs0 _ _ hy, hsm _ _ hx]
  · simp [get_direction, hy, lt_asymm hy, hx, Compass.delta, hsm _ _ hy, hs1 _ _ hx]
  · simp [get_direction, hy, lt_asymm hy, hx, Compass.delta, hsm _ _ hy, hs0 _ _ hx]
  · simp [get_direction, hy, lt_asymm hy, hx, lt_asymm hx, Compass.delta,
      hsm _ _ hy, hsm _ _ hx]

theorem Point.ext' (p q : Point) (hx : p.x = q.x) (hy : p.y = q.y) : p = q := by
  cases p; cases q; simp_all

/-- Every iteration of the movement while loop strictly decreases the taxicab
distance to the target: the full-advance branches align at least one axis,
and the overjump branch lands within 2 cells of the target on the jump axes. -/
theorem moveBody_dist1_lt (oob : Point → Bool) (aj : Bool) (endp : Point)
    (st : MoveState) (h : st.pos ≠ endp) :
    dist1 (Keystroker.moveBody oob aj endp st).2.pos endp < dist1 st.pos endp := by
  obtain ⟨p, ab⟩ := st
  have hne : ¬(endp.x - p.x = 0 ∧ endp.y - p.y = 0) := by
    rintro ⟨h1, h2⟩
    exact h (Point.ext' p endp (by omega) (by omega))
  simp only [Keystroker.moveBody]
  rw [get_direction_delta]
  rcases lt_trichotomy p.x endp.x with hx | hx | hx <;>
    rcases lt_trichotomy p.y endp.y with hy | hy | hy
  · have sx : (endp.x - p.x).sign = 1 := Int.sign_eq_one_iff_pos.mpr (by omega)
    have sy : (endp.y - p.y).sign = 1 := Int.sign_eq_one_iff_pos.mpr (by omega)
    rw [sx, sy]
    split_ifs <;> (simp only [dist1, Point.add_x, Point.add_y, Point.mul_x, Point.mul_y]; omega)
  · have sx : (endp.x - p.x).sign = 1 := Int.sign_eq_one_iff_pos.mpr (by omega)
    have sy : (endp.y - p.y).sign = 0 := by
      have h0 : endp.y - p.y = 0 := by omega
      rw [h0, Int.sign_zero]
    rw [sx, sy]
    split_ifs <;> (simp only [dist1, Point.add_x, Point.add_y, Point.mul_x, Point.mul_y]; omega)
  · have sx : (endp.x - p.x).sign = 1 := Int.sign_eq_one_iff_pos.mpr (by omega)
    have sy : (endp.y - p.y).sign = -1 := Int.sign_eq_neg_one_iff_neg.mpr (by omega)
    rw [sx, sy]
    split_ifs <;> (simp only [dist1, Point.add_x, Point.add_y, Point.mul_x, Point.mul_y]; omega)
  · have sx : (endp.x - p.x).sign = 0 := by
      have h0 : endp.x - p.x = 0 := by omega
      rw [h0, Int.sign_zero]
    have sy : (endp.y - p.y).sign = 1 := Int.sign_eq_one_iff_pos.mpr (by omega)
    rw [sx, sy]
    split_ifs <;> (simp only [dist1, Point.add_x, Point.add_y, Point.mul_x, Point.mul_y]; omega)
  · exact absurd ⟨by omega, by omega⟩ hne
  · have sx : (endp.x - p.x).sign = 0 := by
      have h0 : endp.x - p.x = 0 := by omega
      rw [h0, Int.sign_zero]
    have sy : (endp.y - p.y).sign = -1 := Int.sign_eq_neg_one_iff_neg.mpr (by omega)
    rw [sx, sy]
    split_ifs <;> (simp only [dist1, Point.add_x, Point.add_y, Point.mul_x, Point.mul_y]; omega)
  · have sx : (endp.x - p.x).sign = -1 := Int.sign_eq_neg_one_iff_neg.mpr (by omega)
    have sy : (endp.y - p.y).sign = 1 := Int.sign_eq_one_iff_pos.mpr (by omega)
    rw [sx, sy]
    split_ifs <;> (simp only [dist1, Point.add_x, Point.add_y, Point.mul_x, Point.mul_y]; omega)
  · have sx : (endp.x - p.x).sign = -1 := Int.sign_eq_neg_one_iff_neg.mpr (by omega)
    have sy : (endp.y - p.y).sign = 0 := by
      have h0 : endp.y - p.y = 0 := by omega
      rw [h0, Int.sign_zero]
    rw [sx, sy]
    split_ifs <;> (simp only [dist1, Point.add_x, Point.add_y, Point.mul_x, Point.mul_y]; omega)
  · have sx : (endp.x - p.x).sign = -1 := Int.sign_eq_neg_one_iff_neg.mpr (by omega)
    have sy : (endp.y - p.y).sign = -1 := Int.sign_eq_neg_one_iff_neg.mpr (by omega)
    rw [sx, sy]
    split_ifs <;> (simp only [dist1, Point.add_x, Point.add_y, Point.mul_x, Point.mul_y]; omega)

theorem dist1_eq_zero_iff {p q : Point} : dist1 p q = 0 ↔ p = q := by
  constructor
  · intro h
    simp only [dist1] at h
    exact Point.ext' p q (by omega) (by omega)
  · intro h; subst h; simp [dist1]

theorem replayKeys_append (p : Point) (a b : List String) :
    replayKeys p (a ++ b) = replayKeys (replayKeys p a) b := by
  simp [replayKeys, List.foldl_append]

theorem keyDelta_step (d : Compass) : keyDelta ("[" ++ d.compass ++ "]") = d.delta := by
  cases d <;> rfl

theorem keyDelta_jump (d : Compass) :
    keyDelta ("[+" ++ d.compass ++ "]") = d.delta.mul 10 := by
  cases d <;> rfl

theorem replayKeys_replicate (p : Point) (n : Nat) (k : String) :
    replayKeys p (List.replicate n k) = p.add ((keyDelta k).mul n) := by
  induction n generalizing p with
  | zero =>
    simp only [List.replicate, replayKeys, List.foldl_nil]
    apply Point.ext' <;> simp [Point.add_x, Point.add_y, Point.mul_x, Point.mul_y]
  | succ n ih =>
    simp only [List.replicate, replayKeys, List.foldl_cons] at *
    rw [ih]
    apply Point.ext' <;>
      (simp only [Point.add_x, Point.add_y, Point.mul_x, Point.mul_y]; push_cast; ring)

theorem add_mul_split (p δ : Point) (s : Nat) :
    (p.add (δ.mul ((s % 10 : Nat) : Int))).add ((δ.mul 10).mul ((s / 10 : Nat) : Int)) =
      p.add (δ.mul ((s : Nat) : Int)) := by
  have h10 : (s : Int) = 10 * (↑(s / 10) : Int) + (↑(s % 10) : Int) := by omega
  apply Point.ext' <;>
    (simp only [Point.add_x, Point.add_y, Point.mul_x, Point.mul_y]; rw [h10]; ring)

/-- The keycodes one loop iteration emits, replayed from the iteration's
starting position, land exactly at the iteration's resulting position. -/
theorem moveBody_replay (oob : Point → Bool) (aj : Bool) (endp : Point)
    (st : MoveState) :
    replayKeys st.pos (Keystroker.moveBody oob aj endp st).1 =
      (Keystroker.moveBody oob aj endp st).2.pos := by
  obtain ⟨p, ab⟩ := st
  simp only [Keystroker.moveBody]
  split_ifs <;>
    simp only [replayKeys_append, replayKeys_replicate, keyDelta_step, keyDelta_jump] <;>
    first
      | rfl
      | exact add_mul_split _ _ _

/-- Fuel `dist1 start end` always suffices for the movement while loop. -/
theorem moveWhile_isSome (oob : Point → Bool) (aj : Bool) (endp : Point) :
    ∀ (n : Nat) (st : MoveState), dist1 st.pos endp ≤ n →
      (Keystroker.moveWhile oob aj endp n st).isSome = true := by
  intro n
  induction n with
  | zero =>
    intro st h
    have he : st.pos = endp := dist1_eq_zero_iff.mp (Nat.le_zero.mp h)
    simp [Keystroker.moveWhile, he]
  | succ n ih =>
    intro st h
    by_cases he : st.pos = endp
    · simp [Keystroker.moveWhile, he]
    · have hlt := moveBody_dist1_lt oob aj endp st he
      have hs := ih (Keystroker.moveBody oob aj endp st).2 (by omega)
      obtain ⟨ks, hks⟩ := Option.isSome_iff_exists.mp hs
      simp [Keystroker.moveWhile, he, hks]

/-- Adding one unit of fuel beyond `dist1 start end` does not change the
result of the movement while loop. -/
theorem moveWhile_succ_eq (oob : Point → Bool) (aj : Bool) (endp : Point) :
    ∀ (n : Nat) (st : MoveState), dist1 st.pos endp ≤ n →
      Keystroker.moveWhile oob aj endp (n + 1) st =
        Keystroker.moveWhile oob aj endp n st := by
  intro n
  induction n with
  | zero =>
    intro st h
    have he : st.pos = endp := dist1_eq_zero_iff.mp (Nat.le_zero.mp h)
    simp [Keystroker.moveWhile, he]
  | succ n ih =>
    intro st h
    by_cases he : st.pos = endp
    · simp [Keystroker.moveWhile, he]
    · have hlt := moveBody_dist1_lt oob aj endp st he
      have heq := ih (Keystroker.moveBody oob aj endp st).2 (by omega)
      show (if st.pos = endp then some [] else
          (Keystroker.moveWhile oob aj endp (n + 1)
              (Keystroker.moveBody oob aj endp st).2).map
            (fun ks => (Keystroker.moveBody oob aj endp st).1 ++ ks)) =
        (if st.pos = endp then some [] else
          (Keystroker.moveWhile oob aj endp n
              (Keystroker.moveBody oob aj endp st).2).map
            (fun ks => (Keystroker.moveBody oob aj endp st).1 ++ ks))
      rw [if_neg he, if_neg he, heq]

/-- Any fuel at least `dist1 start end` gives the same loop result. -/
theorem moveWhile_ge_eq (oob : Point → Bool) (aj : Bool) (endp : Point)
    (n m : Nat) (st : MoveState) (h : dist1 st.pos endp ≤ n) (hnm : n ≤ m) :
    Keystroker.moveWhile oob aj endp m st = Keystroker.moveWhile oob aj endp n st := by
  induction m, hnm using Nat.le_induction with
  | base => rfl
  | succ m hm ih =>
    rw [moveWhile_succ_eq oob aj endp m st (le_trans h hm), ih]

/-- Replaying whatever the movement while loop emits lands on the target. -/
theorem moveWhile_replay (oob : Point → Bool) (aj : Bool) (endp : Point) :
    ∀ (n : Nat) (st : MoveState) (ks : List String),
      Keystroker.moveWhile oob aj endp n st = some ks →
      replayKeys st.pos ks = endp := by
  intro n
  induction n with
  | zero =>
    intro st ks h
    by_cases he : st.pos = endp
    · simp [Keystroker.moveWhile, he] at h
      subst h
      simpa [replayKeys] using he
    · simp [Keystroker.moveWhile, he] at h
  | succ n ih =>
    intro st ks h
    by_cases he : st.pos = endp
    · simp [Keystroker.moveWhile, he] at h
      subst h
      simpa [replayKeys] using he
    · simp only [Keystroker.moveWhile, if_neg he, Option.map_eq_some'] at h
      obtain ⟨ks', hks', hkeq⟩ := h
      subst hkeq
      rw [replayKeys_append, moveBody_replay]
      exact ih _ ks' hks'

/-- C1: For every pair of positions A and B on the same z-level (zoffset 0),
every jump-allowance flag and every grid-bounds predicate, replaying the
keycode list returned by `Keystroker.move(A, B)` — one unit per single-step
compass keycode, ten units per jump keycode, in emitted order — ends the
cursor at exactly B. -/
theorem move_replay_ends_at_target (oob : Point → Bool) (allowjumps : Bool)
    (A B : Point) :
    replayKeys A (Keystroker.move oob A B 0 allowjumps) = B := by
  have hs := moveWhile_isSome oob allowjumps B (dist1 A B) ⟨A, true⟩ le_rfl
  obtain ⟨ks, hks⟩ := Option.isSome_iff_exists.mp hs
  have : Keystroker.move oob A B 0 allowjumps = ks := by
    unfold Keystroker.move
    simp [hks]
  rw [this]
  exact moveWhile_replay oob allowjumps B (dist1 A B) ⟨A, true⟩ ks hks

/-- C10: `Keystroker.move` terminates for every start, end, jump-allowance
flag and grid-bounds predicate: the while loop, given any fuel of at least
the taxicab distance `dist1 A B`, exits with the same finite keycode list,
so `dist1 A B` iterations always suffice. -/
theorem move_loop_terminates (oob : Point → Bool) (aj : Bool) (A B : Point)
    (n : Nat) (h : dist1 A B ≤ n) :
    Keystroker.moveWhile oob aj B n ⟨A, true⟩ =
      Keystroker.moveWhile oob aj B (dist1 A B) ⟨A, true⟩ ∧
    (Keystroker.moveWhile oob aj B (dist1 A B) ⟨A, true⟩).isSome = true :=
  ⟨moveWhile_ge_eq oob aj B (dist1 A B) n ⟨A, true⟩ le_rfl h,
   moveWhile_isSome oob aj B (dist1 A B) ⟨A, true⟩ le_rfl⟩

/-- Witness for C10 at a concrete input: from (0,0) to (15,3) with fuel 25. -/
theorem move_loop_terminates_witness :
    Keystroker.moveWhile oobNever true ⟨15, 3⟩ 25 ⟨⟨0, 0⟩, true⟩ =
      Keystroker.moveWhile oobNever true ⟨15, 3⟩ (dist1 ⟨0, 0⟩ ⟨15, 3⟩) ⟨⟨0, 0⟩, true⟩ ∧
    (Keystroker.moveWhile oobNever true ⟨15, 3⟩ (dist1 ⟨0, 0⟩ ⟨15, 3⟩)
        ⟨⟨0, 0⟩, true⟩).isSome = true :=
  move_loop_terminates oobNever true ⟨0, 0⟩ ⟨15, 3⟩ 25 (by decide)

/-- C8: `setmats` returns one select-all for a 1-cell area; for n > 1 it
returns (select-all, next-category) pairs `2*floor(sqrt n) - 1` times followed
by a final select-all; for n = 4 that is exactly 7 keycodes. -/
theorem setmats_spec :
    Keystroker.setmats 1 = ["#"] ∧
    (∀ n : Nat, 1 < n →
      Keystroker.setmats n =
        (List.replicate (2 * Nat.sqrt n - 1) ["#", "[menudown]"]).flatten ++ ["#"] ∧
      (Keystroker.setmats n).length = 2 * (2 * Nat.sqrt n - 1) + 1) ∧
    (Keystroker.setmats 4).length = 7 := by
  have h4 : Nat.sqrt 4 = 2 := by simpa using Nat.sqrt_eq 2
  refine ⟨rfl, ?_, by simp [Keystroker.setmats, h4]⟩
  intro n hn
  have hne : n ≠ 1 := by omega
  constructor
  · simp [Keystroker.setmats, hne]
  · simp [Keystroker.setmats, hne, List.length_flatten, List.map_replicate]
    omega

/-- Witness for C8 at n = 4 (reps = 4, hence 3 pairs and a final select-all). -/
theorem setmats_spec_witness :
    Keystroker.setmats 4 =
      (List.replicate (2 * Nat.sqrt 4 - 1) ["#", "[menudown]"]).flatten ++ ["#"] ∧
    (Keystroker.setmats 4).length = 2 * (2 * Nat.sqrt 4 - 1) + 1 :=
  setmats_spec.2.1 4 (by decide)

/-- C6 counterexample: `%` is present in the macro-mode static table with
token `""`, yet `translate_keycode` returns `%` itself, because Python's
`or` treats the empty-string token as missing. -/
theorem translate_wait_macro_counterexample :
    translate_keycode "%" "macro" = "%" ∧
    dictGet (keyTableFor "macro") "%" = some "" ∧ ("%" : String) ≠ "" :=
  ⟨rfl, rfl, by decide⟩

/-- C6 (amended): for a keycode whose table entry is non-empty,
`translate_keycode` returns the mode-specific token; keycodes that are absent
from the table — and `%` in macro mode, whose entry is the empty string —
pass through unchanged. Every key-mode entry is non-empty. -/
theorem translate_keycode_amended :
    (∀ mode k v, dictGet (keyTableFor mode) k = some v →
      translate_keycode k mode = if v = "" then k else v) ∧
    (∀ mode k, dictGet (keyTableFor mode) k = none → translate_keycode k mode = k) ∧
    (∀ p ∈ keyModeTable, p.2 ≠ "") := by
  refine ⟨?_, ?_, by decide⟩
  · intro mode k v h
    simp [translate_keycode, h]
  · intro mode k h
    simp [translate_keycode, h]

/-- Witness for C6's amended claim at the concrete counterexample input. -/
theorem translate_keycode_amended_witness :
    translate_keycode "%" "macro" = if ("" : String) = "" then "%" else "" :=
  translate_keycode_amended.1 "macro" "%" "" (by decide)

theorem dictGet_mem {α : Type} (l : List (String × α)) (k : String) (v : α)
    (h : dictGet l k = some v) : (k, v) ∈ l := by
  induction l with
  | nil => simp [dictGet] at h
  | cons p rest ih =>
    obtain ⟨k', v'⟩ := p
    by_cases hk : k = k'
    · subst hk
      simp [dictGet] at h
      subst h
      exact List.mem_cons_self _ _
    · simp [dictGet, hk] at h
      exact List.mem_cons_of_mem _ (ih h)

theorem keyModeTable_roundtrip_all :
    ∀ p ∈ keyModeTable,
      dictGet keyModeInv p.2 = some p.1 ∧
      dictGet keyModeTable p.1 = some p.2 ∧ p.2 ≠ "" := by decide

/-- C7: the key-mode table is injective with non-empty tokens, and for every
list of keycodes drawn from the key-mode table, translating to key mode and
mapping each token back through the inverse table recovers the original
keycode list. -/
theorem key_mode_roundtrip :
    ((keyModeTable.map Prod.snd).Nodup ∧ ∀ p ∈ keyModeTable, p.2 ≠ "") ∧
    ∀ ks : List String, (∀ k ∈ ks, (dictGet keyModeTable k).isSome = true) →
      ks.map (fun k => dictGet keyModeInv (translate_keycode k "key")) =
        ks.map some := by
  refine ⟨⟨by decide, by decide⟩, ?_⟩
  intro ks h
  induction ks with
  | nil => rfl
  | cons k rest ih =>
    have hk := h k (List.mem_cons_self _ _)
    obtain ⟨v, hv⟩ := Option.isSome_iff_exists.mp hk
    have hall := keyModeTable_roundtrip_all (k, v) (dictGet_mem _ _ _ hv)
    have htr : translate_keycode k "key" = v := by
      have : dictGet (keyTableFor "key") k = some v := hv
      simp [translate_keycode, this, hall.2.2]
    simp only [List.map_cons, htr, hall.1, ih (fun k' hk' => h k' (List.mem_cons_of_mem _ hk'))]

/-- Witness for C7 on a concrete keycode list. -/
theorem key_mode_roundtrip_witness :
    (["[n]", "!"] : List String).map
        (fun k => dictGet keyModeInv (translate_keycode k "key")) =
      (["[n]", "!"] : List String).map some :=
  key_mode_roundtrip.2 ["[n]", "!"] (by decide)

theorem cmdSubRun_none_of_noncmd (codes : List String) :
    ∀ (fuel i : Nat) (nextcmd acc : List String) (k : Nat) (c : String),
      i ≤ k → nextcmd.get? k = some c → c ≠ "cmd" →
      cmdSubRun codes fuel i nextcmd acc = none := by
  intro fuel
  induction fuel with
  | zero =>
    intro i l acc k c hik hk hc
    have hklen : k < l.length := List.get?_eq_some.mp hk |>.1
    simp [cmdSubRun, Nat.lt_of_le_of_lt hik hklen]
  | succ fuel ih =>
    intro i l acc k c hik hk hc
    have hklen : k < l.length := List.get?_eq_some.mp hk |>.1
    have hilen : i < l.length := Nat.lt_of_le_of_lt hik hklen
    simp only [cmdSubRun, hilen, dif_pos]
    by_cases hcc : l.get ⟨i, hilen⟩ = "cmd"
    · rw [if_pos hcc]
      have hik' : i + 1 ≤ k := by
        rcases Nat.lt_or_ge i k with h' | h'
        · omega
        · exfalso
          have : i = k := by omega
          subst this
          rw [List.get?_eq_get hilen] at hk
          exact hc (by rw [← Option.some_inj.mp hk]; exact hcc)
      exact ih (i + 1) l (acc ++ codes) k c hik' hk hc
    · rw [if_neg hcc]
      exact ih (i + 1) (l ++ [l.get ⟨i, hilen⟩]) acc l.length (l.get ⟨i, hilen⟩)
        (by omega) (List.get?_concat_length l _) hcc

/-- C3: the template-expansion loop of `Keystroker.plot` never terminates on
any template containing a token other than `cmd`: the `else` branch appends
the token back onto the very list being iterated, so no amount of fuel
completes the loop, and the non-`cmd` token never reaches the output. -/
theorem cmd_template_loop_diverges (fuel : Nat) (codes : List String) :
    cmdSubRun codes fuel 0 ["{Enter}"] [] = none :=
  cmdSubRun_none_of_noncmd codes fuel 0 ["{Enter}"] [] 0 "{Enter}" (Nat.le_refl 0)
    rfl (by decide)

/-- C4: `parse_interface_txt` seeds `keybinds` with the whole two-mode
`KEY_LIST` dictionary rather than the macro-mode sub-table, so a keycode such
as `>` that is present in the static macro-mode table but not bound in the
keybinding file makes `convert_to_macro` raise
`Key '>' not bound in interface.txt`. -/
theorem convert_to_macro_static_key_fails :
    dictGet macroModeTable ">" = some ">" ∧
    convert_to_macro KEY_LIST "" [">"] "t" 0 =
      .error "Key '>' not bound in interface.txt" :=
  ⟨rfl, rfl⟩

/-- C5: `parse_interface_txt` aliases and mutates the module-level `KEY_LIST`:
parsing the same keybinding data twice in a row (two consecutive conversions)
yields different tables — the second conversion observes the first one's
mutation and doubles the binding list of key `u`. -/
theorem parse_interface_txt_mutates_global :
    parse_interface_txt KEY_LIST "[BIND:SELECT:REPEAT_NOT]\n[KEY:u]" =
      .ok (KEY_LIST ++ [("u", KBVal.binds ["\t\tSELECT"])]) ∧
    parse_interface_txt (KEY_LIST ++ [("u", KBVal.binds ["\t\tSELECT"])])
        "[BIND:SELECT:REPEAT_NOT]\n[KEY:u]" =
      .ok (KEY_LIST ++ [("u", KBVal.binds ["\t\tSELECT", "\t\tSELECT"])]) ∧
    KEY_LIST ++ [("u", KBVal.binds ["\t\tSELECT"])] ≠ KEY_LIST ∧
    dictGet (KEY_LIST ++ [("u", KBVal.binds ["\t\tSELECT", "\t\tSELECT"])]) "u" ≠
      dictGet (KEY_LIST ++ [("u", KBVal.binds ["\t\tSELECT"])]) "u" :=
  ⟨rfl, rfl, by decide, by decide⟩

theorem plotStep_cursor_eq_sizefun (fuel : Nat) (grid : Point → Cell)
    (oob : Point → Bool) (bc : BuildConfig) (st : PlotState) (pos : Point)
    (ks : List String) (st' : PlotState)
    (f : Point → Point → List String × Point)
    (hf : getSizeFun oob (bc.setsize (grid pos).command) = some f)
    (h : plotStep fuel grid oob bc st pos = some (ks, st')) :
    st'.cursor = (f pos ((grid pos).area.opposite_corner pos)).2 := by
  simp only [plotStep, hf] at h
  repeat' split at h
  all_goals first
    | (simp only [Option.some_inj, Prod.mk.injEq] at h
       exact (congrArg PlotState.cursor h.2).symm)
    | exact absurd h (by simp)

/-- C2 (amended): after `Keystroker.plot` processes an area entered at `pos`,
the threaded cursor equals the position returned by the named sizing
strategy — the opposite corner `endpos` under `setsize_standard`, but the
midpoint of `pos` and `endpos` under `setsize_build` and `setsize_fixed`. -/
theorem plotStep_cursor_amended (fuel : Nat) (grid : Point → Cell)
    (oob : Point → Bool) (bc : BuildConfig) (st : PlotState) (pos : Point)
    (ks : List String) (st' : PlotState)
    (h : plotStep fuel grid oob bc st pos = some (ks, st')) :
    (bc.setsize (grid pos).command = "setsize_standard" →
      st'.cursor = (grid pos).area.opposite_corner pos) ∧
    (bc.setsize (grid pos).command = "setsize_build" ∨
        bc.setsize (grid pos).command = "setsize_fixed" →
      st'.cursor = Point.midpoint pos ((grid pos).area.opposite_corner pos)) := by
  constructor
  · intro hname
    have hf : getSizeFun oob (bc.setsize (grid pos).command) =
        some (Keystroker.setsize_standard oob) := by
      rw [hname]; rfl
    exact plotStep_cursor_eq_sizefun fuel grid oob bc st pos ks st' _ hf h
  · rintro (hname | hname)
    · have hf : getSizeFun oob (bc.setsize (grid pos).command) =
          some (Keystroker.setsize_build oob) := by
        rw [hname]; rfl
      exact plotStep_cursor_eq_sizefun fuel grid oob bc st pos ks st' _ hf h
    · have hf : getSizeFun oob (bc.setsize (grid pos).command) =
          some (Keystroker.setsize_fixed oob) := by
        rw [hname]; rfl
      exact plotStep_cursor_eq_sizefun fuel grid oob bc st pos ks st' _ hf h

/-- C2 counterexample: with the `setsize_build` strategy on a 3x3 area entered
at its (0,0) corner, the threaded cursor ends at the midpoint (1,1), not at
the opposite corner (2,2). -/
theorem plot_cursor_build_counterexample :
    plotStep 2 gridBuildFix oobNever bcBuildFix ⟨⟨0, 0⟩, "", ""⟩ ⟨0, 0⟩ =
      some (["d", "[se]", "[widen]", "[widen]", "[heighten]", "[heighten]", "!"],
        ⟨⟨1, 1⟩, "d", ""⟩) ∧
    (PlotState.cursor ⟨⟨1, 1⟩, "d", ""⟩ ≠
      (gridBuildFix ⟨0, 0⟩).area.opposite_corner ⟨0, 0⟩) ∧
    bcBuildFix.setsize (gridBuildFix ⟨0, 0⟩).command = "setsize_build" :=
  ⟨rfl, by decide, rfl⟩

/-- Witness for C2's amended claim: under `setsize_standard` on a 1x1 area the
cursor ends at the area's opposite corner. -/
theorem plotStep_cursor_amended_witness :
    PlotState.cursor ⟨⟨0, 0⟩, "d", ""⟩ =
      (gridStdFix ⟨0, 0⟩).area.opposite_corner ⟨0, 0⟩ :=
  (plotStep_cursor_amended 2 gridStdFix oobNever bcStdFix ⟨⟨0, 0⟩, "", ""⟩ ⟨0, 0⟩
      ["d", "!"] ⟨⟨0, 0⟩, "d", ""⟩ rfl).1 rfl

theorem subLB_cons (c : Char) (t : List Char) :
    subLB (c :: t) = (if c = '{' then ['|', '{'] else [c]) ++ subLB t := by
  simp only [subLB, List.flatMap_cons]

theorem subRB_cons (c : Char) (t : List Char) :
    subRB (c :: t) = (if c = '}' then ['}', '|'] else [c]) ++ subRB t := by
  simp only [subRB, List.flatMap_cons]

theorem subBang_cons (c : Char) (t : List Char) :
    subBang (c :: t) = (if c = '!' then ['|', '!', '|'] else [c]) ++ subBang t := by
  simp only [subBang, List.flatMap_cons]

theorem subCaret_cons (c : Char) (t : List Char) :
    subCaret (c :: t) = (if c = '^' then ['|', '^', '|'] else [c]) ++ subCaret t := by
  simp only [subCaret, List.flatMap_cons]

theorem subLB_append (a b : List Char) : subLB (a ++ b) = subLB a ++ subLB b := by
  simp [subLB]

theorem subRB_append (a b : List Char) : subRB (a ++ b) = subRB a ++ subRB b := by
  simp [subRB]

theorem subBang_append (a b : List Char) :
    subBang (a ++ b) = subBang a ++ subBang b := by
  simp [subBang]

theorem subCaret_append (a b : List Char) :
    subCaret (a ++ b) = subCaret a ++ subCaret b := by
  simp [subCaret]

theorem subPB_single (c : Char) : subPB [c] = [c] := rfl

theorem subPB_cons2_pos (t : List Char) :
    subPB ('+' :: '!' :: t) = '|' :: '+' :: '!' :: '|' :: subPB t := by
  simp [subPB]

theorem subPB_cons2_neg (c1 c2 : Char) (t : List Char) (h : ¬(c1 = '+' ∧ c2 = '!')) :
    subPB (c1 :: c2 :: t) = c1 :: subPB (c2 :: t) := by
  simp [subPB, h]

theorem subPB_cons_ne (c : Char) (t : List Char) (h : c ≠ '+') :
    subPB (c :: t) = c :: subPB t := by
  cases t with
  | nil => rfl
  | cons c2 rest => exact subPB_cons2_neg c c2 rest (fun hp => h hp.1)

/-- The `+!` substitution distributes over an append whose right part does not
begin with `!` (no `+!` occurrence can straddle the boundary). -/
theorem subPB_append_of_head_ne_bang :
    ∀ (a b : List Char), b.head? ≠ some '!' → subPB (a ++ b) = subPB a ++ subPB b := by
  suffices H : ∀ (n : Nat) (a b : List Char), a.length ≤ n → b.head? ≠ some '!' →
      subPB (a ++ b) = subPB a ++ subPB b by
    intro a b hb
    exact H a.length a b le_rfl hb
  intro n
  induction n with
  | zero =>
    intro a b ha hb
    have : a = [] := List.length_eq_zero.mp (Nat.le_zero.mp ha)
    subst this
    rfl
  | succ n ih =>
    intro a b ha hb
    rcases a with _ | ⟨c1, a1⟩
    · rfl
    rcases a1 with _ | ⟨c2, rest⟩
    · rcases b with _ | ⟨d, bs⟩
      · simp [show subPB ([] : List Char) = [] from rfl]
      · have hd : ¬(c1 = '+' ∧ d = '!') := by
          rintro ⟨h1, h2⟩
          exact hb (by rw [h2]; rfl)
        rw [List.singleton_append, subPB_cons2_neg c1 d bs hd, subPB_single]
        rfl
    · by_cases hc : c1 = '+' ∧ c2 = '!'
      · obtain ⟨h1, h2⟩ := hc
        subst h1; subst h2
        rw [List.cons_append, List.cons_append, subPB_cons2_pos, subPB_cons2_pos]
        have := ih rest b (by simpa using Nat.le_of_succ_le_succ (Nat.le_of_succ_le ha)) hb
        rw [this]
        rfl
      · rw [List.cons_append, List.cons_append, subPB_cons2_neg c1 c2 _ hc,
          subPB_cons2_neg c1 c2 rest hc]
        have := ih (c2 :: rest) b (by simpa using Nat.le_of_succ_le_succ ha) hb
        rw [← List.cons_append, this]
        rfl

/-- After the `+!` substitution, a list that ended with `!` still ends with
`!`, or ends with `|` when the final `!` was absorbed into a `|+!|` wrapper. -/
theorem subPB_concat_bang :
    ∀ (x : List Char), (subPB (x ++ ['!'])).getLast? = some '!' ∨
      (subPB (x ++ ['!'])).getLast? = some '|' := by
  suffices H : ∀ (n : Nat) (x : List Char), x.length ≤ n →
      (subPB (x ++ ['!'])).getLast? = some '!' ∨
      (subPB (x ++ ['!'])).getLast? = some '|' by
    intro x
    exact H x.length x le_rfl
  intro n
  induction n with
  | zero =>
    intro x hx
    have : x = [] := List.length_eq_zero.mp (Nat.le_zero.mp hx)
    subst this
    left; rfl
  | succ n ih =>
    intro x hx
    rcases x with _ | ⟨c1, x1⟩
    · left; rfl
    rcases x1 with _ | ⟨c2, rest⟩
    · by_cases hc : c1 = '+'
      · subst hc
        right
        rw [List.singleton_append, subPB_cons2_pos]
        rfl
      · left
        rw [List.singleton_append, subPB_cons2_neg c1 '!' [] (fun hp => hc hp.1),
          subPB_single]
        rfl
    · by_cases hc : c1 = '+' ∧ c2 = '!'
      · obtain ⟨h1, h2⟩ := hc
        subst h1; subst h2
        rw [List.cons_append, List.cons_append, subPB_cons2_pos]
        have hrec := ih rest (by simpa using Nat.le_of_succ_le_succ (Nat.le_of_succ_le hx))
        rcases hrec with hr | hr
        · left
          rw [show ('|' :: '+' :: '!' :: '|' :: subPB (rest ++ ['!'])) =
            ['|', '+', '!', '|'] ++ subPB (rest ++ ['!']) from rfl]
          rw [List.getLast?_append_of_ne_nil]
          · exact hr
          · intro hnil
            rw [hnil] at hr
            simp at hr
        · right
          rw [show ('|' :: '+' :: '!' :: '|' :: subPB (rest ++ ['!'])) =
            ['|', '+', '!', '|'] ++ subPB (rest ++ ['!']) from rfl]
          rw [List.getLast?_append_of_ne_nil]
          · exact hr
          · intro hnil
            rw [hnil] at hr
            simp at hr
      · rw [List.cons_append, List.cons_append, subPB_cons2_neg c1 c2 _ hc]
        have hrec := ih (c2 :: rest) (by simpa using Nat.le_of_succ_le_succ hx)
        rcases hrec with hr | hr
        · left
          show ([c1] ++ subPB (c2 :: (rest ++ ['!']))).getLast? = some '!'
          rw [List.cons_append] at hr
          rw [List.getLast?_append_of_ne_nil]
          · exact hr
          · intro hnil
            rw [hnil] at hr
            simp at hr
        · right
          show ([c1] ++ subPB (c2 :: (rest ++ ['!']))).getLast? = some '|'
          rw [List.cons_append] at hr
          rw [List.getLast?_append_of_ne_nil]
          · exact hr
          · intro hnil
            rw [hnil] at hr
            simp at hr

theorem subLB_pres (c : Char) (u : List Char) (h : c ≠ '{') :
    subLB (c :: u) = c :: subLB u := by
  rw [subLB_cons, if_neg h]; rfl

theorem subRB_pres (c : Char) (u : List Char) (h : c ≠ '}') :
    subRB (c :: u) = c :: subRB u := by
  rw [subRB_cons, if_neg h]; rfl

theorem subBang_pres (c : Char) (u : List Char) (h : c ≠ '!') :
    subBang (c :: u) = c :: subBang u := by
  rw [subBang_cons, if_neg h]; rfl

theorem subCaret_pres (c : Char) (u : List Char) (h : c ≠ '^') :
    subCaret (c :: u) = c :: subCaret u := by
  rw [subCaret_cons, if_neg h]; rfl

/-- A keystring beginning with one of the special tokens leaves the whole
substitution pipeline beginning with a `|`. -/
theorem pipeline_starts_bar (cs : List Char)
    (h : (∃ t, cs = '{' :: t) ∨ (∃ t, cs = '!' :: t) ∨ (∃ t, cs = '^' :: t) ∨
      (∃ t, cs = '+' :: '!' :: t)) :
    ∃ u, subCaret (subBang (subPB (subRB (subLB cs)))) = '|' :: u := by
  rcases h with ⟨t, ht⟩ | ⟨t, ht⟩ | ⟨t, ht⟩ | ⟨t, ht⟩ <;> subst ht
  · rw [show subLB ('{' :: t) = '|' :: '{' :: subLB t by rw [subLB_cons]; rfl,
      subRB_pres '|' _ (by decide), subPB_cons_ne '|' _ (by decide),
      subBang_pres '|' _ (by decide), subCaret_pres '|' _ (by decide)]
    exact ⟨_, rfl⟩
  · rw [subLB_pres '!' _ (by decide), subRB_pres '!' _ (by decide),
      subPB_cons_ne '!' _ (by decide),
      show subBang ('!' :: subPB (subRB (subLB t))) =
        '|' :: '!' :: '|' :: subBang (subPB (subRB (subLB t))) by
          rw [subBang_cons]; rfl,
      subCaret_pres '|' _ (by decide)]
    exact ⟨_, rfl⟩
  · rw [subLB_pres '^' _ (by decide), subRB_pres '^' _ (by decide),
      subPB_cons_ne '^' _ (by decide), subBang_pres '^' _ (by decide),
      show subCaret ('^' :: subBang (subPB (subRB (subLB t)))) =
        '|' :: '^' :: '|' :: subCaret (subBang (subPB (subRB (subLB t)))) by
          rw [subCaret_cons]; rfl]
    exact ⟨_, rfl⟩
  · rw [subLB_pres '+' _ (by decide), subLB_pres '!' _ (by decide),
      subRB_pres '+' _ (by decide), subRB_pres '!' _ (by decide),
      subPB_cons2_pos, subBang_pres '|' _ (by decide),
      subCaret_pres '|' _ (by decide)]
    exact ⟨_, rfl⟩

theorem flatMap_getLast_eq (f : Char → List Char) (z : List Char) (c : Char)
    (h : z.getLast? = some c) (hfc : f c ≠ []) :
    (z.flatMap f).getLast? = (f c).getLast? := by
  have hne : z ≠ [] := by
    intro hz; rw [hz] at h; simp at h
  have hgl : z.getLast hne = c := by
    have h2 := List.getLast?_eq_getLast z hne
    rw [h] at h2
    exact (Option.some_inj.mp h2).symm
  conv_lhs => rw [← List.dropLast_append_getLast hne]
  rw [List.flatMap_append, hgl]
  rw [show ([c].flatMap f) = f c ++ [] by simp [List.flatMap_cons]]
  rw [List.append_nil]
  exact List.getLast?_append_of_ne_nil _ hfc

theorem subBang_getLast_bar {z : List Char}
    (h : z.getLast? = some '!' ∨ z.getLast? = some '|') :
    (subBang z).getLast? = some '|' := by
  rcases h with h | h
  · exact flatMap_getLast_eq _ z '!' h (by decide)
  · exact flatMap_getLast_eq _ z '|' h (by decide)

theorem subCaret_getLast_bar {z : List Char} (h : z.getLast? = some '|') :
    (subCaret z).getLast? = some '|' := by
  exact flatMap_getLast_eq _ z '|' h (by decide)

/-- A keystring ending with one of the special tokens leaves the whole
substitution pipeline ending with a `|`. -/
theorem pipeline_ends_bar (cs : List Char)
    (h : (∃ x, cs = x ++ ['}']) ∨ (∃ x, cs = x ++ ['!']) ∨ (∃ x, cs = x ++ ['^'])) :
    (subCaret (subBang (subPB (subRB (subLB cs))))).getLast? = some '|' := by
  rcases h with ⟨x, hx⟩ | ⟨x, hx⟩ | ⟨x, hx⟩ <;> subst hx
  · rw [subLB_append, show subLB ['}'] = ['}'] from rfl,
      subRB_append, show subRB ['}'] = ['}', '|'] from rfl,
      subPB_append_of_head_ne_bang _ _ (by decide),
      show subPB ['}', '|'] = ['}', '|'] from rfl,
      subBang_append, show subBang ['}', '|'] = ['}', '|'] from rfl,
      subCaret_append, show subCaret ['}', '|'] = ['}', '|'] from rfl,
      List.getLast?_append_of_ne_nil _ (by decide)]
    rfl
  · rw [subLB_append, show subLB ['!'] = ['!'] from rfl,
      subRB_append, show subRB ['!'] = ['!'] from rfl]
    exact subCaret_getLast_bar (subBang_getLast_bar (subPB_concat_bang _))
  · rw [subLB_append, show subLB ['^'] = ['^'] from rfl,
      subRB_append, show subRB ['^'] = ['^'] from rfl,
      subPB_append_of_head_ne_bang _ _ (by decide),
      show subPB ['^'] = ['^'] from rfl,
      subBang_append, show subBang ['^'] = ['^'] from rfl,
      subCaret_append, show subCaret ['^'] = ['|', '^', '|'] from rfl,
      List.getLast?_append_of_ne_nil _ (by decide)]
    rfl

theorem splitBars_head_mem {cs : List Char} (h : ∃ u, cs = '|' :: u) :
    [] ∈ splitBars cs := by
  obtain ⟨u, hu⟩ := h
  subst hu
  show [] ∈ splitBarsGo ('|' :: u) [] false
  simp only [splitBarsGo, if_pos rfl]
  exact List.mem_cons_self _ _

theorem splitBarsGo_last_mem :
    ∀ (cs acc : List Char) (b : Bool), (b = true → acc = []) →
      cs.getLast? = some '|' → [] ∈ splitBarsGo cs acc b := by
  intro cs
  induction cs with
  | nil => intro acc b hb h; simp at h
  | cons c rest ih =>
    intro acc b hb h
    rcases rest with _ | ⟨d, rest'⟩
    · have hc : c = '|' := by simpa using h
      subst hc
      cases b
      · simp [splitBarsGo]
      · have hacc := hb rfl
        subst hacc
        simp [splitBarsGo]
    · have h' : (d :: rest').getLast? = some '|' := by
        rw [← List.getLast?_cons_cons]
        exact h
      by_cases hc : c = '|'
      · subst hc
        cases b
        · simp only [splitBarsGo, if_pos rfl]
          exact List.mem_cons_of_mem _ (ih [] true (fun _ => rfl) h')
        · have hacc := hb rfl
          subst hacc
          simp only [splitBarsGo, if_pos rfl]
          exact ih [] true (fun _ => rfl) h'
      · simp only [splitBarsGo, if_neg hc]
        exact ih (c :: acc) false (by simp) h'

theorem splitBars_last_mem {cs : List Char} (h : cs.getLast? = some '|') :
    [] ∈ splitBars cs :=
  splitBarsGo_last_mem cs [] false (by simp) h

theorem collectCodes_isOk_false :
    ∀ (l : List (List Char)), [] ∈ l → (collectCodes l).isOk = false := by
  intro l
  induction l with
  | nil => intro h; simp at h
  | cons k rest ih =>
    intro h
    rcases k with _ | ⟨c, k'⟩
    · rfl
    · have hmem : [] ∈ rest := by
        rcases List.mem_cons.mp h with h1 | h1
        · exact absurd h1 (by simp)
        · exact h1
      have hrec := ih hmem
      cases hcc : collectCodes rest with
      | error e =>
        simp only [collectCodes]
        split_ifs <;> simp [hcc, Except.map, Except.isOk, Except.toBool]
      | ok v =>
        rw [hcc] at hrec
        simp [Except.isOk, Except.toBool] at hrec

theorem startsSpecial_cases {s : String} (h : startsSpecial s = true) :
    (∃ t, s.toList = '{' :: t) ∨ (∃ t, s.toList = '!' :: t) ∨
      (∃ t, s.toList = '^' :: t) ∨ (∃ t, s.toList = '+' :: '!' :: t) := by
  unfold startsSpecial at h
  split at h
  · exact Or.inl ⟨_, by assumption⟩
  · exact Or.inr (Or.inl ⟨_, by assumption⟩)
  · exact Or.inr (Or.inr (Or.inl ⟨_, by assumption⟩))
  · exact Or.inr (Or.inr (Or.inr ⟨_, by assumption⟩))
  · simp at h

theorem endsSpecial_cases {s : String} (h : endsSpecial s = true) :
    (∃ x, s.toList = x ++ ['}']) ∨ (∃ x, s.toList = x ++ ['!']) ∨
      (∃ x, s.toList = x ++ ['^']) := by
  unfold endsSpecial at h
  have hself : s.toList = s.toList.reverse.reverse := (List.reverse_reverse _).symm
  split at h
  · rename_i r heq
    exact Or.inl ⟨r.reverse, by rw [hself, heq, List.reverse_cons]⟩
  · rename_i r heq
    exact Or.inr (Or.inl ⟨r.reverse, by rw [hself, heq, List.reverse_cons]⟩)
  · rename_i r heq
    exact Or.inr (Or.inr ⟨r.reverse, by rw [hself, heq, List.reverse_cons]⟩)
  · simp at h

/-- C9: `split_keystring_into_keycodes` fails with the string-index error for
the empty keystring and for every keystring that begins or ends with one of
the special tokens (a brace-delimited token, `!`, `^`, `+!`): the split then
contains an empty segment whose first character is demanded. It returns
normally only for non-empty keystrings that neither begin nor end with a
special token. -/
theorem split_keystring_special_errors (s : String) :
    ((s = "" ∨ startsSpecial s = true ∨ endsSpecial s = true) →
      (split_keystring_into_keycodes s).isOk = false) ∧
    (∀ r, split_keystring_into_keycodes s = .ok r →
      s ≠ "" ∧ startsSpecial s = false ∧ endsSpecial s = false) := by
  have hmain : (s = "" ∨ startsSpecial s = true ∨ endsSpecial s = true) →
      (split_keystring_into_keycodes s).isOk = false := by
    rintro (hs | hs | hs)
    · subst hs; rfl
    · have hb := pipeline_starts_bar s.toList (startsSpecial_cases hs)
      exact collectCodes_isOk_false _ (splitBars_head_mem hb)
    · have hb := pipeline_ends_bar s.toList (endsSpecial_cases hs)
      exact collectCodes_isOk_false _ (splitBars_last_mem hb)
  refine ⟨hmain, ?_⟩
  intro r hr
  have hok : (split_keystring_into_keycodes s).isOk = true := by
    rw [hr]; rfl
  refine ⟨?_, ?_, ?_⟩
  · intro hs
    rw [hmain (Or.inl hs)] at hok
    exact absurd hok (by decide)
  · cases hst : startsSpecial s with
    | false => rfl
    | true =>
      rw [hmain (Or.inr (Or.inl hst))] at hok
      exact absurd hok (by decide)
  · cases hen : endsSpecial s with
    | false => rfl
    | true =>
      rw [hmain (Or.inr (Or.inr hen))] at hok
      exact absurd hok (by decide)

/-- Witness for C9 at a keystring beginning with the special token `!`. -/
theorem split_keystring_special_errors_witness :
    (split_keystring_into_keycodes "!a").isOk = false :=
  (split_keystring_special_errors "!a").1 (Or.inr (Or.inl (by decide)))

example : Keystroker.move (fun _ => false) ⟨0, 0⟩ ⟨15, 0⟩ 0 true =
    ["[e]", "[e]", "[e]", "[e]", "[e]", "[+e]"] := by decide

example : Keystroker.move (fun _ => false) ⟨0, 0⟩ ⟨18, 0⟩ 0 true =
    ["[+e]", "[+e]", "[w]", "[w]"] := by decide

example : replayKeys ⟨0, 0⟩ (Keystroker.move (fun _ => false) ⟨0, 0⟩ ⟨18, 3⟩ 0 true) =
    ⟨18, 3⟩ := by decide

example : split_keystring_into_keycodes "d" = .ok ["d"] := rfl

example : split_keystring_into_keycodes "ab{NumpadAdd}c!d" =
    .ok ["a", "b", "{NumpadAdd}", "c", "!", "d"] := rfl

example : (split_keystring_into_keycodes "!ab").isOk = false := by decide

example : (split_keystring_into_keycodes "").isOk = false := by decide

example : parse_interface_txt KEY_LIST "" = .ok KEY_LIST := rfl

example : parse_interface_txt KEY_LIST "[BIND:SELECT:REPEAT_NOT]\n[KEY:u]" =
    .ok (KEY_LIST ++ [("u", .binds ["\t\tSELECT"])]) := rfl

example : convert_to_macro KEY_LIST "" [">"] "t" 0 =
    .error "Key '>' not bound in interface.txt" := rfl

example : plotStep 2 gridBuildFix oobNever bcBuildFix ⟨⟨0, 0⟩, "", ""⟩ ⟨0, 0⟩ =
    some (["d", "[se]", "[widen]", "[widen]", "[heighten]", "[heighten]", "!"],
      ⟨⟨1, 1⟩, "d", ""⟩) := rfl

example : ∀ codes : List String, cmdSubRun codes 1 0 ["cmd"] [] = some codes := by
  intro codes
  simp [cmdSubRun]
